/-
Verification of the go.onchange development-cycle supervisor.

The repository contains three variants of the program:
  * `src/main.go` (first document): the `Monitor`-based variant with the
    `-restart-command` flag; its handler is `Monitor.Event`.
  * `src/unnamed/part_000`: an intermediate variant with the
    `restartResult` enumeration; its handler is `Monitor.event`.
  * `src/main.go` (second document, after the separator): the oldest,
    flagless variant.

Paths and captured stderr are modelled as `List Char`; process handles as
`Nat` pids; external-tool invocations (build/install/test), path lookup and
process launch as explicit environment records carrying their outcomes.
Side effects are recorded as `Act` traces.
-/
import Mathlib

set_option linter.unusedVariables false

/-! ## Go standard-library helpers (unix semantics) -/

/-- `filepath.Base` for unix paths, on `List Char`:
empty path yields ".", trailing slashes are stripped, the component after
the last slash is returned, and an all-slash path yields "/". -/
def filepathBase (p : List Char) : List Char :=
  if p = [] then ['.']
  else
    let q := (p.reverse.dropWhile (fun c => c = '/')).reverse
    let r := (q.reverse.takeWhile (fun c => c ≠ '/')).reverse
    if r = [] then ['/'] else r

/-- Whether `pre` is a prefix of `s` (Go `strings.HasPrefix`). -/
def goHasPrefix : List Char → List Char → Bool
  | _, [] => true
  | [], _ :: _ => false
  | a :: s, b :: t => a = b && goHasPrefix s t

/-- Whether `sub` occurs as a contiguous substring of `hay`
(Go `strings.Contains`). -/
def goContains : List Char → List Char → Bool
  | hay, sub =>
    goHasPrefix hay sub ||
      match hay with
      | [] => false
      | _ :: t => goContains t sub

/-- Go `regexp` unanchored `Match` for the literal pattern ".": a dot
matches any character except newline, so the pattern matches a string iff
the string contains at least one non-newline character. -/
def goDotMatch (s : List Char) : Bool :=
  s.any (fun c => c ≠ '\n')

/-! ## Error model and the error deduper -/

/-- `tool.CommandError`: an external-tool failure carrying captured stderr
(`StdErr()`); only the captured text is observable to the deduper. -/
structure CommandError where
  stdErr : List Char
  deriving DecidableEq, Repr

/-- An `error` value reaching the deduper: either a `*tool.CommandError`
(the type assertion succeeds) or any other error. -/
inductive GoError where
  | command (ce : CommandError)
  | other (msg : List Char)
  deriving DecidableEq, Repr

/-- `isSameAsLastCommandError` (identical in `src/main.go` and
`src/unnamed/part_000`): a non-`CommandError` returns false and leaves the
stored error untouched; a `CommandError` whose stderr equals the stored
one returns true without updating; otherwise the error is stored and false
is returned.  Result: (is-repeat, new stored error). -/
def isSameAsLastCommandError (last : Option CommandError) (err : GoError) :
    Bool × Option CommandError :=
  match err with
  | .other _ => (false, last)
  | .command ce =>
    match last with
    | some l => if l.stdErr = ce.stdErr then (true, some l) else (false, some ce)
    | none => (false, some ce)

/-! ## Side-effect trace actions -/

/-- The three file slots passed to `os.StartProcess` in both variants:
`[]*os.File{nil, os.Stdout, os.Stderr}`. -/
inductive FileRef where
  | noFile
  | stdout
  | stderr
  deriving DecidableEq, Repr

/-- Observable side effects of the supervisor, recorded in order. -/
inductive Act where
  /-- `process.Kill()` on the old child. -/
  | kill (pid : Nat)
  /-- `process.Wait()` on the old child. -/
  | wait (pid : Nat)
  /-- successful `os.StartProcess bin args files`. -/
  | start (pid : Nat) (bin : List Char) (files : List FileRef)
  /-- failed `os.StartProcess` (logged, no child created). -/
  | startFailed (bin : List Char)
  /-- `log.Print` of an error routed through the deduper. -/
  | logErr (e : GoError)
  /-- `log.Print("test passed")`. -/
  | logTestPassed
  /-- `go m.Watcher.WatchImportPath(pkg, true)`: register a package. -/
  | watchImport (pkg : List Char)
  /-- external-tool `install` invocation on a target. -/
  | installCmd (target : List Char)
  /-- external-tool `test` invocation on a package. -/
  | testCmd (pkg : List Char)
  /-- external-tool `build` invocation. -/
  | buildCmd (target : List Char)
  /-- a plain `log.Print`/`log.Printf` diagnostic line. -/
  | logMsg (msg : List Char)
  deriving DecidableEq, Repr

/-- One trace action's effect on the set of live children: `start` adds a
pid, `wait` removes it (a killed child is only reaped — gone — once waited
on); other actions touch no process. -/
def liveStep (s : List Nat) : Act → List Nat
  | .start pid _ _ => pid :: s
  | .wait pid => s.erase pid
  | _ => s

/-- Live children after replaying a trace from no children. -/
def liveAfter (tr : List Act) : List Nat :=
  tr.foldl liveStep []

/-- A raw change event from `pkgwatcher` (`ev.Name`,
`ev.Package.ImportPath`). -/
structure WEvent where
  name : List Char
  pkgImportPath : List Char
  deriving DecidableEq, Repr

/-- Outcome of one external-tool `install`/`build` command: the error, if
any, and the reported affected packages. -/
structure ToolEnv where
  err : Option GoError
  affected : List (List Char)

/-- The standard file slots handed to every `os.StartProcess` call. -/
def stdFiles : List FileRef := [FileRef.noFile, FileRef.stdout, FileRef.stderr]

/-! ## The `src/main.go` variant (`Monitor` with `-restart-command`) -/

/-- Mutable `Monitor` fields of `src/main.go`: the stored deduper error,
the last-test-failed flag and the child-process handle; `nextPid` is the
pid allocator for freshly started children. -/
structure MState where
  lastCommandError : Option CommandError
  lastTestFailed : Bool
  process : Option Nat
  nextPid : Nat
  deriving DecidableEq, Repr

/-- `Monitor.RestartBin`: the name looked up is `CustomRestart` when set,
otherwise `filepath.Base(ImportPath)`; `exec.LookPath` (the `lookPath`
environment) resolves it on the executable search path. -/
def Monitor.RestartBin (lookPath : List Char → Option (List Char))
    (customRestart importPath : List Char) : Option (List Char) :=
  let p := if customRestart = [] then filepathBase importPath else customRestart
  lookPath p

/-- `Monitor.Restart` of `src/main.go`: resolve the binary (on failure log
and return, leaving any child running); kill and wait the current child if
one exists, clearing the handle; start the resolved binary with
`[nil, os.Stdout, os.Stderr]`.  A failed `os.StartProcess` assigns `nil`
to the handle and logs.  `startOk` is the launch outcome; verbose logging
and screen clearing are not recorded. -/
def Monitor.Restart (lookPath : List Char → Option (List Char)) (startOk : Bool)
    (customRestart importPath : List Char) (st : MState) : MState × List Act :=
  match Monitor.RestartBin lookPath customRestart importPath with
  | none => (st, [Act.logMsg "error finding binary".data])
  | some bin =>
    let (st1, tr1) :=
      match st.process with
      | some p => ({ st with process := none }, [Act.kill p, Act.wait p])
      | none => (st, ([] : List Act))
    if startOk then
      ({ st1 with process := some st1.nextPid, nextPid := st1.nextPid + 1 },
        tr1 ++ [Act.start st1.nextPid bin stdFiles])
    else
      ({ st1 with process := none }, tr1 ++ [Act.startFailed bin])

/-- `Monitor.Install` of `src/main.go`: false on a tool error or when zero
packages were affected, true otherwise. -/
def Monitor.Install (env : ToolEnv) : Bool :=
  if env.err.isSome then false
  else if env.affected = [] then false
  else true

/-- `Monitor.Test` of `src/main.go`: a failure is logged unless it repeats
the stored error, and sets `lastTestFailed`; a success logs "test passed"
only if the previous test had failed, and clears the flag. -/
def Monitor.Test (testErr : Option GoError) (st : MState) : MState × List Act :=
  match testErr with
  | some e =>
    let r := isSameAsLastCommandError st.lastCommandError e
    ({ st with lastCommandError := r.2, lastTestFailed := true },
      if r.1 then [] else [Act.logErr e])
  | none =>
    if st.lastTestFailed then
      ({ st with lastTestFailed := false }, [Act.logTestPassed])
    else (st, [])

/-- `Monitor.ShouldIgnore` of `src/main.go`: a dot-prefixed base name is
ignored; otherwise the file is ignored iff the full path does not match
the configured pattern (`re`, the compiled `IncludePatternRe`). -/
def Monitor.ShouldIgnore (re : List Char → Bool) (name : List Char) : Bool :=
  if (filepathBase name).head? = some '.' then true
  else if re name then false
  else true

/-- Immutable `Monitor` configuration of `src/main.go` relevant to the
event handler. -/
structure MonitorCfg where
  includePatternRe : List Char → Bool
  runTests : Bool
  customRestart : List Char
  importPath : List Char

/-- External outcomes for one `Monitor.Event` invocation of
`src/main.go`. -/
structure MainEnvs where
  installEnv : ToolEnv
  lookPath : List Char → Option (List Char)
  startOk : Bool
  testErr : Option GoError

/-- `Monitor.Event` of `src/main.go`: an ignored event does nothing;
otherwise the owning package is registered (`go ... WatchImportPath`,
spawned before the lock is taken), then under the lock: install "all";
restart only if something was installed; clear the stored deduper error
when the path contains `_test.go`; test the owning package if enabled. -/
def Monitor.Event (cfg : MonitorCfg) (env : MainEnvs) (ev : WEvent) (st : MState) :
    MState × List Act :=
  if Monitor.ShouldIgnore cfg.includePatternRe ev.name then (st, [])
  else
    let tr1 := [Act.watchImport ev.pkgImportPath, Act.installCmd "all".data]
    let did := Monitor.Install env.installEnv
    let (st2, tr2) :=
      if did then
        let r := Monitor.Restart env.lookPath env.startOk cfg.customRestart cfg.importPath st
        (r.1, tr1 ++ r.2)
      else (st, tr1)
    let st3 :=
      if goContains ev.name "_test.go".data then { st2 with lastCommandError := none }
      else st2
    if cfg.runTests then
      let r := Monitor.Test env.testErr st3
      (r.1, tr2 ++ [Act.testCmd ev.pkgImportPath] ++ r.2)
    else (st3, tr2)

/-! ## The `src/unnamed/part_000` variant (`restartResult`) -/

/-- The `restartResult` enumeration of `src/unnamed/part_000`. -/
inductive restartResult where
  | restartNecessary
  | restartUnnecessary
  | restartBuildFailed
  deriving DecidableEq, Repr

/-- Package-level mutable state of `src/unnamed/part_000`:
`lastCommandError` and `process`, plus the pid allocator. -/
structure PState where
  lastCommandError : Option CommandError
  process : Option Nat
  nextPid : Nat
  deriving DecidableEq, Repr

/-- External outcomes for one `restart` invocation of
`src/unnamed/part_000`: temp-file creation, the build command's error and
affected packages, and the launch outcome. -/
structure BuildEnv where
  tempOk : Bool
  tempName : List Char
  buildErr : Option GoError
  affected : List (List Char)
  startOk : Bool

/-- `restart` of `src/unnamed/part_000`: build into a fresh temp file; a
build error equal to the stored one is suppressed (`restartUnnecessary`),
a new one is logged and stored (`restartBuildFailed`); with a running
process and zero affected packages the rebuild is ignored
(`restartUnnecessary`); otherwise any running child is killed and waited
on and the temp binary is started with `[nil, os.Stdout, os.Stderr]`. -/
def restart (env : BuildEnv) (importPath : List Char) (st : PState) :
    restartResult × PState × List Act :=
  if env.tempOk = false then
    (.restartBuildFailed, st, [Act.logMsg "Error creating temp file".data])
  else
    let tr0 := [Act.buildCmd importPath]
    match env.buildErr with
    | some e =>
      let r := isSameAsLastCommandError st.lastCommandError e
      if r.1 then
        (.restartUnnecessary, { st with lastCommandError := r.2 }, tr0)
      else
        (.restartBuildFailed, { st with lastCommandError := r.2 },
          tr0 ++ [Act.logErr e])
    | none =>
      if st.process.isSome && decide (env.affected = []) then
        (.restartUnnecessary, st, tr0)
      else
        let (st1, tr1) :=
          match st.process with
          | some p => ({ st with process := none }, [Act.kill p, Act.wait p])
          | none => (st, ([] : List Act))
        if env.startOk then
          (.restartNecessary,
            { st1 with process := some st1.nextPid, nextPid := st1.nextPid + 1 },
            tr0 ++ tr1 ++ [Act.start st1.nextPid env.tempName stdFiles])
        else
          (.restartBuildFailed, { st1 with process := none },
            tr0 ++ tr1 ++ [Act.startFailed env.tempName])

/-- `install` of `src/unnamed/part_000`: `restartUnnecessary` exactly when
the tool succeeded and reported zero affected packages. -/
def install (env : ToolEnv) : restartResult :=
  if env.err.isNone && decide (env.affected = []) then .restartUnnecessary
  else .restartNecessary

/-- `test` of `src/unnamed/part_000`: a failure is logged unless it
repeats the stored error. -/
def test (testErr : Option GoError) (st : PState) : PState × List Act :=
  match testErr with
  | some e =>
    let r := isSameAsLastCommandError st.lastCommandError e
    ({ st with lastCommandError := r.2 }, if r.1 then [] else [Act.logErr e])
  | none => (st, [])

/-- Flags of `src/unnamed/part_000` relevant to the handler. -/
structure PFlags where
  installAll : Bool
  runTests : Bool

/-- External outcomes for one `Monitor.event` invocation of
`src/unnamed/part_000`. -/
structure PEnvs where
  installEnv : ToolEnv
  buildEnv : BuildEnv
  testErr : Option GoError

/-- `Monitor.event` of `src/unnamed/part_000` (its whole body runs with
`eventLock` held): filter the event; install ("all" or the root package,
per the `-i` flag); if nothing was installed stop; restart; if the restart
was unnecessary stop; register the owning package; test it if enabled. -/
def Monitor.event (flags : PFlags) (re : List Char → Bool) (importPath : List Char)
    (envs : PEnvs) (ev : WEvent) (st : PState) : PState × List Act :=
  if (filepathBase ev.name).head? = some '.' then (st, [])
  else if re ev.name then
    let target := if flags.installAll then "all".data else importPath
    let installR := install envs.installEnv
    let tr0 := [Act.installCmd target]
    if installR = .restartUnnecessary then (st, tr0)
    else
      let r := restart envs.buildEnv importPath st
      if r.1 = .restartUnnecessary then (r.2.1, tr0 ++ r.2.2)
      else
        let tr2 := tr0 ++ r.2.2 ++ [Act.watchImport ev.pkgImportPath]
        if flags.runTests then
          let t := test envs.testErr r.2.1
          (t.1, tr2 ++ [Act.testCmd ev.pkgImportPath] ++ t.2)
        else (r.2.1, tr2)
  else (st, [])

/-! ## Serialized dispatch: the event loop's lock model

`Monitor.Start` (loop) receives each accepted event and spawns
`go monitor.event(ev)`: one independently scheduled task per event.  The
handler's first statement takes `eventLock` and its effects all run before
the deferred unlock.  The model below runs a fixed set of dispatched tasks
under an arbitrary scheduler: a `Choice` list says which task attempts to
acquire the lock, emit its next effect, or release; attempts that the lock
or the task's phase forbids are no-ops. -/

/-- One dispatched handler task: its event and the external outcomes its
tool invocations will see. -/
structure TaskSpec where
  ev : WEvent
  envs : PEnvs

/-- Configuration shared by all dispatch tasks. -/
structure LoopCfg where
  flags : PFlags
  re : List Char → Bool
  importPath : List Char

/-- The full body of `Monitor.event` as run by one dispatch task while it
holds the lock. -/
def handlerRun (cfg : LoopCfg) (t : TaskSpec) (st : PState) : PState × List Act :=
  Monitor.event cfg.flags cfg.re cfg.importPath t.envs t.ev st

/-- Lifecycle of a dispatch task: not yet acquired the lock; holding the
lock with `em` effects already emitted, `rest` still to emit and `nxt` the
state to commit; or finished having emitted `em`. -/
inductive TaskPhase where
  | pending
  | holding (em rest : List Act) (nxt : PState)
  | done (em : List Act)
  deriving DecidableEq, Repr

/-- Global state of the dispatch model: the lock-protected shared program
state, each task's phase, the lock owner, the order in which tasks
acquired the lock, and the interleaved global effect trace tagged by task
index. -/
structure CState where
  shared : PState
  phases : List TaskPhase
  owner : Option Nat
  acqOrder : List Nat
  trace : List (Nat × Act)

/-- A scheduler decision: which task attempts which lock transition. -/
inductive Choice where
  | acquire (i : Nat)
  | emit (i : Nat)
  | release (i : Nat)
  deriving DecidableEq, Repr

/-- One scheduler step.  `acquire` succeeds only when the lock is free and
the task is pending; it computes the handler's effects from the shared
state it locked.  `emit` and `release` succeed only for the owner.
Anything else is a no-op. -/
def cstep (cfg : LoopCfg) (tasks : List TaskSpec) (s : CState) : Choice → CState
  | .acquire i =>
    match s.owner, s.phases[i]?, tasks[i]? with
    | none, some TaskPhase.pending, some t =>
      let r := handlerRun cfg t s.shared
      { s with owner := some i,
               phases := s.phases.set i (TaskPhase.holding [] r.2 r.1),
               acqOrder := s.acqOrder ++ [i] }
    | _, _, _ => s
  | .emit i =>
    match s.phases[i]? with
    | some (TaskPhase.holding em (a :: rest) nxt) =>
      if s.owner = some i then
        { s with phases := s.phases.set i (TaskPhase.holding (em ++ [a]) rest nxt),
                 trace := s.trace ++ [(i, a)] }
      else s
    | _ => s
  | .release i =>
    match s.phases[i]? with
    | some (TaskPhase.holding em [] nxt) =>
      if s.owner = some i then
        { s with owner := none, shared := nxt,
                 phases := s.phases.set i (TaskPhase.done em) }
      else s
    | _ => s

/-- Run a whole schedule. -/
def crun (cfg : LoopCfg) (tasks : List TaskSpec) : CState → List Choice → CState
  | s, [] => s
  | s, c :: cs => crun cfg tasks (cstep cfg tasks s c) cs

/-- Initial dispatch state: all tasks dispatched and pending, lock free,
empty trace. -/
def cinit (tasks : List TaskSpec) (st0 : PState) : CState :=
  { shared := st0, phases := tasks.map (fun _ => TaskPhase.pending),
    owner := none, acqOrder := [], trace := [] }

/-- The effects task `i` has emitted so far, tagged with `i`. -/
def taken (phases : List TaskPhase) (i : Nat) : List (Nat × Act) :=
  match phases[i]? with
  | some (TaskPhase.holding em _ _) => em.map (fun a => (i, a))
  | some (TaskPhase.done em) => em.map (fun a => (i, a))
  | _ => []

/-- The fully serialized trace: per-task contiguous blocks concatenated in
lock-acquisition order. -/
def expTrace (phases : List TaskPhase) : List Nat → List (Nat × Act)
  | [] => []
  | i :: rest => taken phases i ++ expTrace phases rest

/-- A phase option that is a finished task. -/
def phaseDone (ph : Option TaskPhase) : Prop :=
  ∃ em, ph = some (TaskPhase.done em)

/-- Invariant of the dispatch model: the global trace is exactly the
serialized per-task blocks in acquisition order; acquisition order has no
repeats; the owner is the last acquirer and everyone before it finished;
non-acquirers are pending; every held or finished block is the effect list
`Monitor.event` computes from the state at lock acquisition. -/
structure CInv (cfg : LoopCfg) (tasks : List TaskSpec) (s : CState) : Prop where
  trace_eq : s.trace = expTrace s.phases s.acqOrder
  nodup : s.acqOrder.Nodup
  owner_some : ∀ i, s.owner = some i →
    ∃ front em rest nxt, s.acqOrder = front ++ [i] ∧
      s.phases[i]? = some (TaskPhase.holding em rest nxt) ∧
      ∀ j ∈ front, phaseDone s.phases[j]?
  owner_none : s.owner = none → ∀ j ∈ s.acqOrder, phaseDone s.phases[j]?
  mem_not_pending : ∀ j ∈ s.acqOrder, s.phases[j]? ≠ some TaskPhase.pending
  not_mem_pending : ∀ j, j ∉ s.acqOrder →
    s.phases[j]? = some TaskPhase.pending ∨ s.phases[j]? = none
  holding_src : ∀ (i : Nat) (em rest : List Act) (nxt : PState),
    s.phases[i]? = some (TaskPhase.holding em rest nxt) →
    ∃ t stp, tasks[i]? = some t ∧ handlerRun cfg t stp = (nxt, em ++ rest)
  done_src : ∀ (i : Nat) (em : List Act),
    s.phases[i]? = some (TaskPhase.done em) →
    ∃ t stp, tasks[i]? = some t ∧ (handlerRun cfg t stp).2 = em

/-! ## Auxiliary definitions for the claims -/

/-- The live-children list an `Option` process handle stands for. -/
def procList : Option Nat → List Nat
  | none => []
  | some p => [p]

/-- Every instant of a trace replayed from children `s0` sees at most one
live child. -/
def boundedLive (s0 : List Nat) (tr : List Act) : Prop :=
  ∀ n, ((tr.take n).foldl liveStep s0).length ≤ 1

/-- Outcomes of the environment for one serialized restart request against
`Monitor.Restart` of `src/main.go`. -/
structure RestartReq where
  lookPath : List Char → Option (List Char)
  startOk : Bool

/-- A serialized sequence of `Monitor.Restart` requests (the lock admits
them one at a time), with the concatenated effect trace. -/
def runRestarts (customRestart importPath : List Char) :
    List RestartReq → MState → MState × List Act
  | [], st => (st, [])
  | r :: rs, st =>
    let a := Monitor.Restart r.lookPath r.startOk customRestart importPath st
    let b := runRestarts customRestart importPath rs a.1
    (b.1, a.2 ++ b.2)

/-- The error log lines of a trace. -/
def logLinesOf (tr : List Act) : List Act :=
  tr.filter fun a => match a with | .logErr _ => true | _ => false

/-- Replay a sequence of consecutive failing builds through `restart` of
`src/unnamed/part_000` (temp file fine, zero affected, launch fine),
collecting all log lines. -/
def replayBuildFailures (importPath : List Char) :
    List GoError → PState → PState × List Act
  | [], st => (st, [])
  | e :: es, st =>
    let r := restart
      { tempOk := true, tempName := "/tmp/bin-1".data, buildErr := some e,
        affected := [], startOk := true } importPath st
    let b := replayBuildFailures importPath es r.2.1
    (b.1, r.2.2 ++ b.2)

/-- Where a restart gets its binary from: a named lookup on the executable
search path, or the freshly built temporary artifact run directly. -/
inductive BinSource where
  | searchPath (name : List Char)
  | tempArtifact
  deriving DecidableEq, Repr

/-- The binary source `Monitor.Restart` of `src/main.go` uses, read off
`Monitor.RestartBin`: always a search-path lookup (`exec.LookPath`), of
the custom restart command when set and of the import path's base name
otherwise. -/
def Monitor.restartBinSource (customRestart importPath : List Char) : BinSource :=
  BinSource.searchPath
    (if customRestart = [] then filepathBase importPath else customRestart)

/-- Modelled from the spec: the binary-resolution rule as claim C6 states
it — a configured restart-command name is resolved from the search path,
and otherwise the freshly built temporary artifact is executed directly.
Stated only to be compared against `Monitor.restartBinSource`, the rule
the code implements. -/
def claimedRestartBinSource (customRestart : List Char) : BinSource :=
  if customRestart = [] then BinSource.tempArtifact
  else BinSource.searchPath customRestart

/-! # Theorems -/

/-- C10: a value that is not a captured-stderr command error is never a
repeat — `isSameAsLastCommandError` answers false on it and leaves the
stored error untouched — and only a command error can ever make the
classifier answer true or change the store. -/
theorem C10_only_command_errors_stored :
    (∀ (last : Option CommandError) (msg : List Char),
      isSameAsLastCommandError last (GoError.other msg) = (false, last)) ∧
    (∀ (last : Option CommandError) (err : GoError),
      (isSameAsLastCommandError last err).1 = true ∨
        (isSameAsLastCommandError last err).2 ≠ last →
      ∃ ce, err = GoError.command ce) := by
  refine ⟨fun last msg => rfl, fun last err h => ?_⟩
  cases err with
  | command ce => exact ⟨ce, rfl⟩
  | other m => simp [isSameAsLastCommandError] at h

/-- C10 witness: a concrete non-command error is passed through with the
store untouched, and a concrete store-changing error is a command
error. -/
theorem C10_witness :
    isSameAsLastCommandError none (GoError.other "boom".data) = (false, none) ∧
    ∃ ce, GoError.command ⟨"e".data⟩ = GoError.command ce :=
  ⟨C10_only_command_errors_stored.1 none "boom".data,
    C10_only_command_errors_stored.2 none (GoError.command ⟨"e".data⟩)
      (Or.inr (by decide))⟩

/-- C3 counterexample: under the default pattern "." the one-character
path "\n" has a base name that is not dot-prefixed, yet it is ignored,
because Go's "." does not match a newline — so the default pattern does
not match all paths, contrary to the claim. -/
theorem C3_counterexample :
    Monitor.ShouldIgnore goDotMatch ['\n'] = true ∧
    (filepathBase ['\n']).head? ≠ some '.' ∧
    goDotMatch ['\n'] = false := by decide

/-- C3 (amended): the filter is pure and two-stage — a path whose base
name starts with '.' is rejected regardless of the pattern, and any other
path is accepted iff the full path matches the configured pattern; the
default pattern "." matches exactly the paths containing at least one
non-newline character (in particular every path containing a directory
separator). -/
theorem C3_filter_two_stage :
    (∀ (re : List Char → Bool) (name : List Char),
      (filepathBase name).head? = some '.' →
      Monitor.ShouldIgnore re name = true) ∧
    (∀ (re : List Char → Bool) (name : List Char),
      (filepathBase name).head? ≠ some '.' →
      (Monitor.ShouldIgnore re name = false ↔ re name = true)) ∧
    (∀ name : List Char, goDotMatch name = true ↔ ∃ c ∈ name, c ≠ '\n') ∧
    (∀ name : List Char, '/' ∈ name → goDotMatch name = true) := by
  refine ⟨fun re name h => ?_, fun re name h => ?_, fun name => ?_, fun name h => ?_⟩
  · simp [Monitor.ShouldIgnore, h]
  · simp only [Monitor.ShouldIgnore, h, if_false]
    cases hre : re name <;> simp [hre]
  · simp [goDotMatch, List.any_eq_true]
  · simp only [goDotMatch, List.any_eq_true]
    exact ⟨'/', h, by decide⟩

/-- C3 witness: the two stages and the default-pattern characterization at
concrete paths. -/
theorem C3_witness :
    Monitor.ShouldIgnore goDotMatch ".hidden.go".data = true ∧
    (Monitor.ShouldIgnore goDotMatch "src/a.go".data = false ↔
      goDotMatch "src/a.go".data = true) ∧
    (goDotMatch "src/a.go".data = true ↔ ∃ c ∈ "src/a.go".data, c ≠ '\n') ∧
    goDotMatch "src/a.go".data = true :=
  ⟨C3_filter_two_stage.1 goDotMatch ".hidden.go".data (by decide),
    C3_filter_two_stage.2.1 goDotMatch "src/a.go".data (by decide),
    C3_filter_two_stage.2.2.1 "src/a.go".data,
    C3_filter_two_stage.2.2.2 "src/a.go".data (by decide)⟩

/-- C6 counterexample: with no restart-command configured, the flagged
variant still resolves the base name of the import path on the executable
search path — it does not execute the freshly built temporary artifact
directly, contrary to the claim's "otherwise" mode. -/
theorem C6_counterexample :
    Monitor.restartBinSource [] "github.com/daaku/rell".data =
      BinSource.searchPath "rell".data ∧
    claimedRestartBinSource [] = BinSource.tempArtifact ∧
    Monitor.restartBinSource [] "github.com/daaku/rell".data ≠
      claimedRestartBinSource [] := by decide

/-- C6 (amended): in the variant with the restart-command flag the binary
is always re-resolved from the executable search path — the configured
name when set, the base name of the import path otherwise — and every
binary it actually starts is such a lookup result; only the flagless
variant executes the freshly built temporary artifact directly. -/
theorem C6_bin_resolution :
    (∀ (lookPath : List Char → Option (List Char)) (custom ip : List Char),
      custom ≠ [] → Monitor.RestartBin lookPath custom ip = lookPath custom) ∧
    (∀ (lookPath : List Char → Option (List Char)) (ip : List Char),
      Monitor.RestartBin lookPath [] ip = lookPath (filepathBase ip)) ∧
    (∀ (lookPath : List Char → Option (List Char)) (startOk : Bool)
        (custom ip : List Char) (st : MState) (pid : Nat) (bin : List Char)
        (files : List FileRef),
      Act.start pid bin files ∈ (Monitor.Restart lookPath startOk custom ip st).2 →
      Monitor.RestartBin lookPath custom ip = some bin) ∧
    (∀ (env : BuildEnv) (ip : List Char) (st : PState) (pid : Nat)
        (bin : List Char) (files : List FileRef),
      Act.start pid bin files ∈ (restart env ip st).2.2 → bin = env.tempName) := by
  refine ⟨fun lookPath custom ip h => ?_, fun lookPath ip => ?_,
    fun lookPath startOk custom ip st pid bin files h => ?_,
    fun env ip st pid bin files h => ?_⟩
  · simp [Monitor.RestartBin, h]
  · simp [Monitor.RestartBin]
  · revert h
    unfold Monitor.Restart
    cases hb : Monitor.RestartBin lookPath custom ip with
    | none => simp
    | some b =>
      cases hp : st.process <;> cases hok : startOk <;>
        simp +contextual [hb]
  · revert h
    unfold restart
    cases ht : env.tempOk with
    | false => simp
    | true =>
      simp only [Bool.true_eq_false, if_false]
      cases hbe : env.buildErr with
      | some e =>
        cases h1 : (isSameAsLastCommandError st.lastCommandError e).1 <;> simp [h1]
      | none =>
        cases hz : st.process.isSome && decide (env.affected = []) with
        | true => simp [hz]
        | false =>
          simp only [hz, if_false]
          cases hp : st.process <;> cases hok : env.startOk <;>
            simp +contextual

/-- C6 witness: concrete lookups — a configured name and an unset one both
go through the search path, and a concrete `part_000` restart starts the
temp binary. -/
theorem C6_witness :
    ("x".data ≠ ([] : List Char) ∧
      Monitor.RestartBin (fun n => some ("/bin/".data ++ n)) "x".data "a/b".data =
        some "/bin/x".data) ∧
    Monitor.RestartBin (fun n => some ("/bin/".data ++ n)) [] "a/b".data =
      some "/bin/b".data ∧
    ("/tmp/t".data =
      (⟨true, "/tmp/t".data, none, ["p".data], true⟩ : BuildEnv).tempName) :=
  ⟨⟨by decide, C6_bin_resolution.1 (fun n => some ("/bin/".data ++ n)) "x".data
      "a/b".data (by decide)⟩,
    C6_bin_resolution.2.1 (fun n => some ("/bin/".data ++ n)) "a/b".data,
    C6_bin_resolution.2.2.2 ⟨true, "/tmp/t".data, none, ["p".data], true⟩
      "p".data ⟨none, none, 0⟩ 0 "/tmp/t".data stdFiles (by decide)⟩

/-- C7: in `restart` of `src/unnamed/part_000`, when the build succeeds
the zero-affected-packages suppression applies exactly when a process is
already running; with no process running the restart path is taken
unconditionally (a successful launch starts the temp binary), even with
zero affected packages. -/
theorem C7_first_build_restarts :
    ∀ (env : BuildEnv) (ip : List Char) (st : PState),
      env.tempOk = true → env.buildErr = none →
      ((restart env ip st).1 = restartResult.restartUnnecessary ↔
        st.process.isSome = true ∧ env.affected = []) ∧
      (st.process = none →
        (restart env ip st).1 ≠ restartResult.restartUnnecessary ∧
        (env.startOk = true →
          Act.start st.nextPid env.tempName stdFiles ∈ (restart env ip st).2.2)) := by
  intro env ip st ht hbe
  unfold restart
  rw [ht, hbe]
  cases hp : st.process with
  | none => cases hok : env.startOk <;> simp [hp, hok]
  | some p =>
    cases ha : env.affected with
    | nil => simp [hp, ha]
    | cons x xs => cases hok : env.startOk <;> simp [hp, ha, hok]

/-- C7 witness: with no running process, a successful build with zero
affected packages still starts the freshly built binary. -/
theorem C7_witness :
    (restart ⟨true, "/tmp/t".data, none, [], true⟩ "p".data ⟨none, none, 5⟩).1 ≠
      restartResult.restartUnnecessary ∧
    Act.start 5 "/tmp/t".data stdFiles ∈
      (restart ⟨true, "/tmp/t".data, none, [], true⟩ "p".data ⟨none, none, 5⟩).2.2 :=
  ⟨((C7_first_build_restarts ⟨true, "/tmp/t".data, none, [], true⟩ "p".data
      ⟨none, none, 5⟩ rfl rfl).2 rfl).1,
    ((C7_first_build_restarts ⟨true, "/tmp/t".data, none, [], true⟩ "p".data
      ⟨none, none, 5⟩ rfl rfl).2 rfl).2 rfl⟩

/-- C2: the deduper classifies a command failure whose captured stderr
equals the stored one as a repeat and leaves the store unchanged — in
`restart` of `src/unnamed/part_000` such a failure produces no log line —
while a differing failure is logged and becomes the stored error; hence
two byte-identical consecutive build failures yield exactly one log line
and a third with different text yields a second. -/
theorem C2_dedup_consecutive_failures :
    (∀ (l ce : CommandError), l.stdErr = ce.stdErr →
      isSameAsLastCommandError (some l) (GoError.command ce) = (true, some l)) ∧
    (∀ (last : Option CommandError) (ce : CommandError),
      (∀ l, last = some l → l.stdErr ≠ ce.stdErr) →
      isSameAsLastCommandError last (GoError.command ce) = (false, some ce)) ∧
    (∀ (env : BuildEnv) (ip : List Char) (st : PState) (l ce : CommandError),
      env.tempOk = true → env.buildErr = some (GoError.command ce) →
      st.lastCommandError = some l → l.stdErr = ce.stdErr →
      restart env ip st =
        (restartResult.restartUnnecessary, st, [Act.buildCmd ip])) ∧
    (∀ (env : BuildEnv) (ip : List Char) (st : PState) (ce : CommandError),
      env.tempOk = true → env.buildErr = some (GoError.command ce) →
      (∀ l, st.lastCommandError = some l → l.stdErr ≠ ce.stdErr) →
      restart env ip st =
        (restartResult.restartBuildFailed,
          { st with lastCommandError := some ce },
          [Act.buildCmd ip, Act.logErr (GoError.command ce)])) ∧
    (∀ (ip s s' : List Char), s ≠ s' →
      logLinesOf (replayBuildFailures ip
          [GoError.command ⟨s⟩, GoError.command ⟨s⟩, GoError.command ⟨s'⟩]
          ⟨none, none, 0⟩).2 =
        [Act.logErr (GoError.command ⟨s⟩), Act.logErr (GoError.command ⟨s'⟩)]) := by
  refine ⟨fun l ce h => ?_, fun last ce h => ?_,
    fun env ip st l ce ht hbe hl h => ?_, fun env ip st ce ht hbe hne => ?_,
    fun ip s s' hss => ?_⟩
  · simp [isSameAsLastCommandError, h]
  · cases last with
    | none => rfl
    | some l => simp [isSameAsLastCommandError, h l rfl]
  · rcases st with ⟨lce, pr, np⟩
    simp only at hl
    subst hl
    simp [restart, ht, hbe, isSameAsLastCommandError, h]
  · unfold restart
    rw [ht, hbe]
    cases hl : st.lastCommandError with
    | none => simp [isSameAsLastCommandError, hl]
    | some l => simp [isSameAsLastCommandError, hl, hne l hl]
  · simp [replayBuildFailures, restart, isSameAsLastCommandError, logLinesOf,
      hss, List.filter]

/-- C2 witness: a concrete identical pair is suppressed, a differing third
failure is logged, and the three-failure replay yields exactly the two
expected log lines. -/
theorem C2_witness :
    isSameAsLastCommandError (some ⟨"e1".data⟩) (GoError.command ⟨"e1".data⟩) =
      (true, some ⟨"e1".data⟩) ∧
    isSameAsLastCommandError (some ⟨"e1".data⟩) (GoError.command ⟨"e2".data⟩) =
      (false, some ⟨"e2".data⟩) ∧
    logLinesOf (replayBuildFailures "p".data
        [GoError.command ⟨"e1".data⟩, GoError.command ⟨"e1".data⟩,
          GoError.command ⟨"e2".data⟩] ⟨none, none, 0⟩).2 =
      [Act.logErr (GoError.command ⟨"e1".data⟩),
        Act.logErr (GoError.command ⟨"e2".data⟩)] :=
  ⟨C2_dedup_consecutive_failures.1 ⟨"e1".data⟩ ⟨"e1".data⟩ rfl,
    C2_dedup_consecutive_failures.2.1 (some ⟨"e1".data⟩) ⟨"e2".data⟩
      (fun l hl => by cases hl; decide),
    C2_dedup_consecutive_failures.2.2.2.2 "p".data "e1".data "e2".data (by decide)⟩

/-- `Monitor.Test` never touches the process handle and only ever logs. -/
theorem Test_frame (testErr : Option GoError) (st : MState) :
    (Monitor.Test testErr st).1.process = st.process ∧
    ∀ a ∈ (Monitor.Test testErr st).2,
      a = Act.logTestPassed ∨ ∃ e, a = Act.logErr e := by
  cases testErr with
  | some e =>
    refine ⟨rfl, fun a ha => ?_⟩
    revert ha
    simp only [Monitor.Test]
    split <;> simp +contextual
  | none =>
    simp only [Monitor.Test]
    split <;> simp

/-- C4: an install run that succeeds with zero affected packages returns
"nothing changed" in both variants (`restartUnnecessary` / `false`), the
`part_000` handler then stops with only the install invocation in its
trace and its state untouched, and the `main.go` handler performs no
restart — no process start or kill — and leaves the process handle as it
was. -/
theorem C4_zero_affected_no_restart :
    (∀ env : ToolEnv, env.err = none → env.affected = [] →
      install env = restartResult.restartUnnecessary ∧
        Monitor.Install env = false) ∧
    (∀ (flags : PFlags) (re : List Char → Bool) (ip : List Char)
        (benv : BuildEnv) (terr : Option GoError) (ev : WEvent) (st : PState)
        (ienv : ToolEnv),
      ienv.err = none → ienv.affected = [] →
      (Monitor.event flags re ip ⟨ienv, benv, terr⟩ ev st).1 = st ∧
      ((Monitor.event flags re ip ⟨ienv, benv, terr⟩ ev st).2 = [] ∨
        (Monitor.event flags re ip ⟨ienv, benv, terr⟩ ev st).2 =
          [Act.installCmd (if flags.installAll then "all".data else ip)])) ∧
    (∀ (cfg : MonitorCfg) (env : MainEnvs) (ev : WEvent) (st : MState),
      env.installEnv.err = none → env.installEnv.affected = [] →
      (Monitor.Event cfg env ev st).1.process = st.process ∧
      (∀ (pid : Nat) (bin : List Char) (files : List FileRef),
        Act.start pid bin files ∉ (Monitor.Event cfg env ev st).2) ∧
      (∀ p : Nat, Act.kill p ∉ (Monitor.Event cfg env ev st).2)) := by
  refine ⟨fun env h1 h2 => ?_, fun flags re ip benv terr ev st ienv h1 h2 => ?_,
    fun cfg env ev st h1 h2 => ?_⟩
  · simp [install, Monitor.Install, h1, h2]
  · have hi : install ienv = restartResult.restartUnnecessary := by
      simp [install, h1, h2]
    unfold Monitor.event
    by_cases hd : (filepathBase ev.name).head? = some '.'
    · simp [hd]
    · cases hre : re ev.name with
      | false => simp [hd, hre]
      | true => simp [hd, hre, hi]
  · have hi : Monitor.Install env.installEnv = false := by
      simp [Monitor.Install, h1, h2]
    unfold Monitor.Event
    cases hs : Monitor.ShouldIgnore cfg.includePatternRe ev.name with
    | true => simp
    | false =>
      simp only [Bool.false_eq_true, if_false, hi]
      have hp3 : (if goContains ev.name "_test.go".data = true
          then { st with lastCommandError := none } else st).process =
          st.process := by
        split <;> rfl
      cases hrt : cfg.runTests with
      | false =>
        simp only [Bool.false_eq_true, if_false]
        exact ⟨hp3, fun pid bin files => by simp, fun p => by simp⟩
      | true =>
        simp only [if_true]
        refine ⟨?_, fun pid bin files hmem => ?_, fun p hmem => ?_⟩
        · rw [(Test_frame _ _).1, hp3]
        · rcases List.mem_append.mp hmem with hL | hR
          · rcases List.mem_append.mp hL with hL2 | hR2
            · simp at hL2
            · simp at hR2
          · rcases (Test_frame _ _).2 _ hR with h | ⟨e, h⟩ <;> simp at h
        · rcases List.mem_append.mp hmem with hL | hR
          · rcases List.mem_append.mp hL with hL2 | hR2
            · simp at hL2
            · simp at hR2
          · rcases (Test_frame _ _).2 _ hR with h | ⟨e, h⟩ <;> simp at h

/-- C4 witness: a concrete zero-affected install suppresses the restart
and leaves the concrete running process untouched in both handlers. -/
theorem C4_witness :
    (install ⟨none, []⟩ = restartResult.restartUnnecessary ∧
      Monitor.Install ⟨none, []⟩ = false) ∧
    ((Monitor.event ⟨true, true⟩ (fun _ => true) "p".data
        ⟨⟨none, []⟩, ⟨true, "/tmp/t".data, none, [], true⟩, none⟩
        ⟨"a.go".data, "pkg".data⟩ ⟨none, some 7, 8⟩).1 = ⟨none, some 7, 8⟩ ∧
      ((Monitor.event ⟨true, true⟩ (fun _ => true) "p".data
          ⟨⟨none, []⟩, ⟨true, "/tmp/t".data, none, [], true⟩, none⟩
          ⟨"a.go".data, "pkg".data⟩ ⟨none, some 7, 8⟩).2 = [] ∨
        (Monitor.event ⟨true, true⟩ (fun _ => true) "p".data
          ⟨⟨none, []⟩, ⟨true, "/tmp/t".data, none, [], true⟩, none⟩
          ⟨"a.go".data, "pkg".data⟩ ⟨none, some 7, 8⟩).2 =
          [Act.installCmd
            (if (⟨true, true⟩ : PFlags).installAll then "all".data else "p".data)])) :=
  ⟨C4_zero_affected_no_restart.1 ⟨none, []⟩ rfl rfl,
    C4_zero_affected_no_restart.2.1 ⟨true, true⟩ (fun _ => true) "p".data
      ⟨true, "/tmp/t".data, none, [], true⟩ none ⟨"a.go".data, "pkg".data⟩
      ⟨none, some 7, 8⟩ ⟨none, []⟩ rfl rfl⟩

/-- C8: for an accepted event whose path contains "_test.go", the handler
of `src/main.go` clears the stored deduper error during handling — with
testing off the handler ends with no stored error, and with testing on a
failing test is logged no matter what was stored before (in particular
when its stderr is byte-identical to the previously stored error). -/
theorem C8_test_file_clears_dedup :
    ∀ (cfg : MonitorCfg) (env : MainEnvs) (ev : WEvent) (st : MState),
      Monitor.ShouldIgnore cfg.includePatternRe ev.name = false →
      goContains ev.name "_test.go".data = true →
      (cfg.runTests = false →
        (Monitor.Event cfg env ev st).1.lastCommandError = none) ∧
      (∀ e, cfg.runTests = true → env.testErr = some e →
        Act.logErr e ∈ (Monitor.Event cfg env ev st).2) := by
  intro cfg env ev st hs hgc
  have hfalse : ∀ e : GoError, (isSameAsLastCommandError none e).1 = false := by
    intro e; cases e <;> rfl
  unfold Monitor.Event
  rw [hs]
  constructor
  · intro hrt
    simp [hgc, hrt]
  · intro e hrt hte
    simp [hgc, hrt, hte, Monitor.Test, hfalse]

/-- C8 witness: a `_test.go` event whose test fails with stderr identical
to the stored error still gets the failure logged. -/
theorem C8_witness :
    Act.logErr (GoError.command ⟨"e".data⟩) ∈
      (Monitor.Event ⟨fun _ => true, true, [], "p".data⟩
        ⟨⟨none, []⟩, fun _ => none, true, some (GoError.command ⟨"e".data⟩)⟩
        ⟨"foo_test.go".data, "pkg".data⟩
        ⟨some ⟨"e".data⟩, false, none, 0⟩).2 :=
  (C8_test_file_clears_dedup ⟨fun _ => true, true, [], "p".data⟩
      ⟨⟨none, []⟩, fun _ => none, true, some (GoError.command ⟨"e".data⟩)⟩
      ⟨"foo_test.go".data, "pkg".data⟩ ⟨some ⟨"e".data⟩, false, none, 0⟩
      (by decide) (by decide)).2
    (GoError.command ⟨"e".data⟩) rfl rfl

/-- C5 counterexample: in `Monitor.Event` of `src/main.go`, an accepted
event whose install reports nothing installed does not stop the handler —
the test step still runs (a `testCmd` and a logged failure follow the
install in the trace), contradicting the claim's step (c); the trace also
shows the watch-set registration is dispatched before the lock-held
steps. -/
theorem C5_counterexample :
    Monitor.Install (⟨none, []⟩ : ToolEnv) = false ∧
    (Monitor.Event ⟨fun _ => true, true, [], "p".data⟩
        ⟨⟨none, []⟩, fun _ => none, true, some (GoError.command ⟨"boom".data⟩)⟩
        ⟨"a.go".data, "pkg".data⟩ ⟨none, false, none, 0⟩).2 =
      [Act.watchImport "pkg".data, Act.installCmd "all".data,
        Act.testCmd "pkg".data, Act.logErr (GoError.command ⟨"boom".data⟩)] :=
  ⟨rfl, rfl⟩

/-- C5 (amended): for every accepted event, `Monitor.Event` of
`src/main.go` first registers the event's owning package (dispatched
before the lock is acquired), then invokes install on "all"; if something
was installed the restart's actions follow, otherwise they are skipped;
and if testing is enabled the test of the owning package runs afterwards
in every case — a failed or empty install suppresses only the restart,
not the test step. -/
theorem C5_event_step_order :
    ∀ (cfg : MonitorCfg) (env : MainEnvs) (ev : WEvent) (st : MState),
      Monitor.ShouldIgnore cfg.includePatternRe ev.name = false →
      ∃ trR trT,
        (Monitor.Event cfg env ev st).2 =
          Act.watchImport ev.pkgImportPath :: Act.installCmd "all".data ::
            (trR ++ trT) ∧
        (Monitor.Install env.installEnv = true →
          trR = (Monitor.Restart env.lookPath env.startOk cfg.customRestart
            cfg.importPath st).2) ∧
        (Monitor.Install env.installEnv = false → trR = []) ∧
        (cfg.runTests = false → trT = []) ∧
        (cfg.runTests = true →
          ∃ rest, trT = Act.testCmd ev.pkgImportPath :: rest) := by
  intro cfg env ev st hs
  unfold Monitor.Event
  rw [hs]
  simp only [Bool.false_eq_true, if_false]
  cases hdid : Monitor.Install env.installEnv with
  | true =>
    cases hrt : cfg.runTests with
    | true =>
      simp only [reduceIte]
      refine ⟨(Monitor.Restart env.lookPath env.startOk cfg.customRestart
          cfg.importPath st).2,
        Act.testCmd ev.pkgImportPath ::
          (Monitor.Test env.testErr
            (if goContains ev.name "_test.go".data = true
              then { (Monitor.Restart env.lookPath env.startOk cfg.customRestart
                  cfg.importPath st).1 with lastCommandError := none }
              else (Monitor.Restart env.lookPath env.startOk cfg.customRestart
                  cfg.importPath st).1)).2,
        ?_, fun _ => rfl, fun h => absurd h (by simp), fun h => absurd h (by simp),
        fun _ => ⟨_, rfl⟩⟩
      simp
    | false =>
      simp only [reduceIte, Bool.false_eq_true, if_false]
      refine ⟨(Monitor.Restart env.lookPath env.startOk cfg.customRestart
          cfg.importPath st).2, [], ?_, fun _ => rfl,
        fun h => absurd h (by simp), fun _ => rfl, fun h => absurd h (by simp)⟩
      simp
  | false =>
    cases hrt : cfg.runTests with
    | true =>
      simp only [reduceIte, Bool.false_eq_true, if_false]
      refine ⟨[],
        Act.testCmd ev.pkgImportPath ::
          (Monitor.Test env.testErr
            (if goContains ev.name "_test.go".data = true
              then { st with lastCommandError := none } else st)).2,
        ?_, fun h => absurd h (by simp), fun _ => rfl,
        fun h => absurd h (by simp), fun _ => ⟨_, rfl⟩⟩
      simp
    | false =>
      simp only [reduceIte, Bool.false_eq_true, if_false]
      exact ⟨[], [], by simp, fun h => absurd h (by simp), fun _ => rfl,
        fun _ => rfl, fun h => absurd h (by simp)⟩

/-- C5 witness: the step-order decomposition at a concrete accepted
event. -/
theorem C5_witness :
    ∃ trR trT,
      (Monitor.Event ⟨fun _ => true, false, [], "q".data⟩
          ⟨⟨none, ["x".data]⟩, fun n => some n, true, none⟩
          ⟨"b.go".data, "pkg2".data⟩ ⟨none, false, none, 3⟩).2 =
        Act.watchImport "pkg2".data :: Act.installCmd "all".data ::
          (trR ++ trT) ∧
      (Monitor.Install ⟨none, ["x".data]⟩ = true →
        trR = (Monitor.Restart (fun n => some n) true [] "q".data
          ⟨none, false, none, 3⟩).2) ∧
      (Monitor.Install ⟨none, ["x".data]⟩ = false → trR = []) ∧
      (false = false → trT = []) ∧
      (false = true → ∃ rest, trT = Act.testCmd "pkg2".data :: rest) :=
  C5_event_step_order ⟨fun _ => true, false, [], "q".data⟩
    ⟨⟨none, ["x".data]⟩, fun n => some n, true, none⟩
    ⟨"b.go".data, "pkg2".data⟩ ⟨none, false, none, 3⟩ (by decide)

/-- Replaying one `Monitor.Restart` trace from the children implied by the
pre-state keeps at most one child live at every instant and ends with the
children implied by the post-state. -/
theorem Restart_live (lookPath : List Char → Option (List Char)) (startOk : Bool)
    (customRestart importPath : List Char) (st : MState) :
    boundedLive (procList st.process)
      (Monitor.Restart lookPath startOk customRestart importPath st).2 ∧
    (Monitor.Restart lookPath startOk customRestart importPath st).2.foldl
        liveStep (procList st.process) =
      procList
        (Monitor.Restart lookPath startOk customRestart importPath st).1.process := by
  unfold Monitor.Restart
  cases hb : Monitor.RestartBin lookPath customRestart importPath with
  | none =>
    constructor
    · intro n
      cases hp : st.process <;> rcases n with _ | n <;>
        simp [procList, liveStep, hp, List.take_succ_cons]
    · cases hp : st.process <;> simp [procList, liveStep, hp]
  | some bin =>
    cases hp : st.process with
    | none =>
      cases startOk with
      | true =>
        refine ⟨fun n => ?_, by simp [procList, liveStep]⟩
        rcases n with _ | n <;> simp [procList, liveStep, List.take_succ_cons]
      | false =>
        refine ⟨fun n => ?_, by simp [procList, liveStep]⟩
        rcases n with _ | n <;> simp [procList, liveStep, List.take_succ_cons]
    | some p =>
      cases startOk with
      | true =>
        refine ⟨fun n => ?_, by simp [procList, liveStep]⟩
        rcases n with _ | _ | _ | n <;>
          simp [procList, liveStep, List.take_succ_cons]
      | false =>
        refine ⟨fun n => ?_, by simp [procList, liveStep]⟩
        rcases n with _ | _ | _ | n <;>
          simp [procList, liveStep, List.take_succ_cons]

/-- Instant-wise bound composes over trace concatenation. -/
theorem boundedLive_append {s0 : List Nat} {a b : List Act}
    (ha : boundedLive s0 a) (hb : boundedLive (a.foldl liveStep s0) b) :
    boundedLive s0 (a ++ b) := by
  intro n
  rcases le_or_lt n a.length with h | h
  · rw [List.take_append_of_le_length h]
    exact ha n
  · rw [List.take_append_eq_append_take, List.take_of_length_le (le_of_lt h),
      List.foldl_append]
    exact hb (n - a.length)

/-- Across any serialized sequence of restart requests, at most one child
is live at every instant, and the final live children are the final
state's handle. -/
theorem runRestarts_live (customRestart importPath : List Char) :
    ∀ (reqs : List RestartReq) (st : MState),
      boundedLive (procList st.process)
        (runRestarts customRestart importPath reqs st).2 ∧
      (runRestarts customRestart importPath reqs st).2.foldl liveStep
          (procList st.process) =
        procList (runRestarts customRestart importPath reqs st).1.process := by
  intro reqs
  induction reqs with
  | nil =>
    intro st
    refine ⟨fun n => ?_, rfl⟩
    cases st.process <;> simp [runRestarts, procList]
  | cons r rs ih =>
    intro st
    have h1 := Restart_live r.lookPath r.startOk customRestart importPath st
    have h2 := ih (Monitor.Restart r.lookPath r.startOk customRestart
      importPath st).1
    refine ⟨?_, ?_⟩
    · exact boundedLive_append h1.1 (h1.2 ▸ h2.1)
    · rw [show (runRestarts customRestart importPath (r :: rs) st).2 =
          (Monitor.Restart r.lookPath r.startOk customRestart importPath st).2 ++
          (runRestarts customRestart importPath rs
            (Monitor.Restart r.lookPath r.startOk customRestart
              importPath st).1).2 from rfl,
        List.foldl_append, h1.2]
      exact h2.2

/-- C1: a restart with a child running kills and fully waits on it before
the single new start (or failed start) of the resolved binary; every
started child gets the supervisor's `[nil, stdout, stderr]` file slots;
and across any serialized sequence of restart requests at most one child
is live at any instant. -/
theorem C1_restart_single_child :
    (∀ (lookPath : List Char → Option (List Char)) (startOk : Bool)
        (custom ip : List Char) (st : MState) (p : Nat) (bin : List Char),
      st.process = some p →
      Monitor.RestartBin lookPath custom ip = some bin →
      (Monitor.Restart lookPath startOk custom ip st).2 =
        Act.kill p :: Act.wait p ::
          (if startOk then [Act.start st.nextPid bin stdFiles]
            else [Act.startFailed bin])) ∧
    (∀ (lookPath : List Char → Option (List Char)) (startOk : Bool)
        (custom ip : List Char) (st : MState) (pid : Nat) (bin : List Char)
        (files : List FileRef),
      Act.start pid bin files ∈ (Monitor.Restart lookPath startOk custom ip st).2 →
      files = stdFiles) ∧
    (∀ (custom ip : List Char) (reqs : List RestartReq) (st0 : MState),
      st0.process = none →
      boundedLive [] (runRestarts custom ip reqs st0).2) := by
  refine ⟨fun lookPath startOk custom ip st p bin hp hb => ?_,
    fun lookPath startOk custom ip st pid bin files h => ?_,
    fun custom ip reqs st0 h0 => ?_⟩
  · unfold Monitor.Restart
    rw [hb, hp]
    cases startOk <;> simp
  · revert h
    unfold Monitor.Restart
    cases hb : Monitor.RestartBin lookPath custom ip with
    | none => simp
    | some b =>
      cases hp : st.process <;> cases hok : startOk <;>
        simp +contextual
  · have h := (runRestarts_live custom ip reqs st0).1
    rw [h0] at h
    exact h

/-- C1 witness: a concrete restart over a running child kills and waits it
before the start, and a concrete serialized request sequence keeps at most
one child live. -/
theorem C1_witness :
    (Monitor.Restart (fun n => some n) true "c".data "a/b".data
        ⟨none, false, some 4, 9⟩).2 =
      Act.kill 4 :: Act.wait 4 ::
        (if true then [Act.start 9 "c".data stdFiles]
          else [Act.startFailed "c".data]) ∧
    boundedLive []
      (runRestarts "c".data "a/b".data
        [⟨fun n => some n, true⟩, ⟨fun n => some n, true⟩]
        ⟨none, false, none, 0⟩).2 :=
  ⟨C1_restart_single_child.1 (fun n => some n) true "c".data "a/b".data
      ⟨none, false, some 4, 9⟩ 4 "c".data rfl rfl,
    C1_restart_single_child.2.2 "c".data "a/b".data
      [⟨fun n => some n, true⟩, ⟨fun n => some n, true⟩]
      ⟨none, false, none, 0⟩ rfl⟩

/-- `taken` ignores phase updates at other indices. -/
theorem taken_set_ne (phases : List TaskPhase) (i j : Nat) (x : TaskPhase)
    (h : i ≠ j) : taken (phases.set i x) j = taken phases j := by
  unfold taken
  rw [List.getElem?_set_ne h]

/-- `taken` at a freshly set index. -/
theorem taken_set_self (phases : List TaskPhase) (i : Nat) (x : TaskPhase)
    (h : i < phases.length) :
    taken (phases.set i x) i =
      (match x with
        | TaskPhase.holding em _ _ => em.map (fun a => (i, a))
        | TaskPhase.done em => em.map (fun a => (i, a))
        | TaskPhase.pending => []) := by
  unfold taken
  rw [List.getElem?_set_self h]
  cases x <;> rfl

/-- `expTrace` only looks at `taken` of the listed tasks. -/
theorem expTrace_congr (ph ph' : List TaskPhase) :
    ∀ ord : List Nat, (∀ j ∈ ord, taken ph' j = taken ph j) →
      expTrace ph' ord = expTrace ph ord := by
  intro ord
  induction ord with
  | nil => intro _; rfl
  | cons j rest ih =>
    intro h
    unfold expTrace
    rw [h j (List.mem_cons_self j rest),
      ih (fun k hk => h k (List.mem_cons_of_mem j hk))]

/-- `expTrace` distributes over concatenated orders. -/
theorem expTrace_append (phases : List TaskPhase) :
    ∀ a b : List Nat,
      expTrace phases (a ++ b) = expTrace phases a ++ expTrace phases b := by
  intro a b
  induction a with
  | nil => rfl
  | cons j rest ih => simp [expTrace, ih]

/-- The initial dispatch state satisfies the serialization invariant. -/
theorem cinv_init (cfg : LoopCfg) (tasks : List TaskSpec) (st0 : PState) :
    CInv cfg tasks (cinit tasks st0) := by
  refine ⟨rfl, List.nodup_nil, ?_, ?_, ?_, ?_, ?_, ?_⟩
  · intro i h
    simp [cinit] at h
  · intro _ j hj
    simp [cinit] at hj
  · intro j hj
    simp [cinit] at hj
  · intro j _
    simp only [cinit, List.getElem?_map]
    cases tasks[j]? <;> simp
  · intro i em rest nxt h
    simp only [cinit, List.getElem?_map] at h
    cases ht : tasks[i]? <;> rw [ht] at h <;> simp at h
  · intro i em h
    simp only [cinit, List.getElem?_map] at h
    cases ht : tasks[i]? <;> rw [ht] at h <;> simp at h

/-- Every scheduler step preserves the serialization invariant. -/
theorem cinv_step (cfg : LoopCfg) (tasks : List TaskSpec) (s : CState)
    (c : Choice) (inv : CInv cfg tasks s) :
    CInv cfg tasks (cstep cfg tasks s c) := by
  cases c with
  | acquire i =>
    unfold cstep
    dsimp only
    split
    · rename_i t ho hp htk
      have hlt : i < s.phases.length := by
        have hp' := hp
        rw [List.getElem?_eq_some] at hp'
        exact hp'.1
      have hnm : i ∉ s.acqOrder := fun hm => inv.mem_not_pending i hm hp
      refine ⟨?_, ?_, ?_, ?_, ?_, ?_, ?_, ?_⟩
      · dsimp only
        have hc : expTrace (s.phases.set i
            (TaskPhase.holding [] (handlerRun cfg t s.shared).2
              (handlerRun cfg t s.shared).1)) s.acqOrder =
            expTrace s.phases s.acqOrder :=
          expTrace_congr _ _ _
            (fun j hj => taken_set_ne _ _ _ _ (fun he => hnm (he ▸ hj)))
        have h2 : taken (s.phases.set i
            (TaskPhase.holding [] (handlerRun cfg t s.shared).2
              (handlerRun cfg t s.shared).1)) i = [] := by
          rw [taken_set_self _ _ _ hlt]
          rfl
        rw [expTrace_append, hc]
        simp [expTrace, h2, inv.trace_eq]
      · dsimp only
        rw [List.nodup_append]
        refine ⟨inv.nodup, List.nodup_singleton i, ?_⟩
        intro a ha hb
        exact hnm ((List.mem_singleton.mp hb) ▸ ha)
      · intro i' h
        dsimp only at h ⊢
        have hii : i = i' := Option.some.inj h
        subst hii
        refine ⟨s.acqOrder, [], (handlerRun cfg t s.shared).2,
          (handlerRun cfg t s.shared).1, rfl, ?_, ?_⟩
        · rw [List.getElem?_set_self hlt]
        · intro j hj
          have hne : i ≠ j := fun he => hnm (he ▸ hj)
          rw [List.getElem?_set_ne hne]
          exact inv.owner_none ho j hj
      · intro h
        dsimp only at h
        exact Option.noConfusion h
      · intro j hj
        dsimp only at hj ⊢
        rcases List.mem_append.mp hj with hj1 | hj2
        · have hne : i ≠ j := fun he => hnm (he ▸ hj1)
          rw [List.getElem?_set_ne hne]
          exact inv.mem_not_pending j hj1
        · have hji : j = i := List.mem_singleton.mp hj2
          subst hji
          rw [List.getElem?_set_self hlt]
          simp
      · intro j hj
        dsimp only at hj ⊢
        rw [List.mem_append] at hj
        push_neg at hj
        have hne : i ≠ j :=
          fun he => hj.2 (List.mem_singleton.mpr he.symm)
        rw [List.getElem?_set_ne hne]
        exact inv.not_mem_pending j hj.1
      · intro i' em rest nxt h
        dsimp only at h
        by_cases hii : i' = i
        · subst hii
          rw [List.getElem?_set_self hlt, Option.some.injEq] at h
          obtain ⟨h1, h2, h3⟩ := TaskPhase.holding.inj h
          exact ⟨t, s.shared, htk, by rw [← h1, ← h2, ← h3]; simp⟩
        · rw [List.getElem?_set_ne (fun he => hii he.symm)] at h
          exact inv.holding_src i' em rest nxt h
      · intro i' em h
        dsimp only at h
        by_cases hii : i' = i
        · subst hii
          rw [List.getElem?_set_self hlt] at h
          simp at h
        · rw [List.getElem?_set_ne (fun he => hii he.symm)] at h
          exact inv.done_src i' em h
    · exact inv
  | emit i =>
    unfold cstep
    dsimp only
    split
    · rename_i em a rest nxt hp
      split
      · rename_i ho
        obtain ⟨front, em0, rest0', nxt0, hord, hpi, hfront⟩ :=
          inv.owner_some i ho
        rw [hp, Option.some.injEq] at hpi
        obtain ⟨rfl, rfl, rfl⟩ := TaskPhase.holding.inj hpi
        have hlt : i < s.phases.length := by
          have hp' := hp
          rw [List.getElem?_eq_some] at hp'
          exact hp'.1
        have hif : i ∉ front := by
          have hnd := inv.nodup
          rw [hord, List.nodup_append] at hnd
          exact fun hm => hnd.2.2 hm (List.mem_singleton_self i)
        refine ⟨?_, ?_, ?_, ?_, ?_, ?_, ?_, ?_⟩
        · dsimp only
          rw [hord, expTrace_append]
          have hc : expTrace (s.phases.set i
              (TaskPhase.holding (em ++ [a]) rest nxt)) front =
              expTrace s.phases front :=
            expTrace_congr _ _ _
              (fun j hj => taken_set_ne _ _ _ _ (fun he => hif (he ▸ hj)))
          have htakenew : taken (s.phases.set i
              (TaskPhase.holding (em ++ [a]) rest nxt)) i =
              (em ++ [a]).map (fun x => (i, x)) := by
            rw [taken_set_self _ _ _ hlt]
          have htakeold : taken s.phases i = em.map (fun x => (i, x)) := by
            unfold taken
            rw [hp]
          have hT := inv.trace_eq
          rw [hord, expTrace_append] at hT
          simp only [expTrace, htakeold, List.append_nil] at hT
          simp [expTrace, hc, htakenew, hT, List.append_assoc]
        · exact inv.nodup
        · intro i' h
          dsimp only at h ⊢
          rw [ho] at h
          have hii : i = i' := Option.some.inj h
          subst hii
          refine ⟨front, em ++ [a], rest, nxt, hord, ?_, ?_⟩
          · rw [List.getElem?_set_self hlt]
          · intro j hj
            have hne : i ≠ j := fun he => hif (he ▸ hj)
            rw [List.getElem?_set_ne hne]
            exact hfront j hj
        · intro h
          dsimp only at h
          rw [h] at ho
          exact Option.noConfusion ho
        · intro j hj
          dsimp only at hj ⊢
          by_cases hij : j = i
          · subst hij
            rw [List.getElem?_set_self hlt]
            simp
          · rw [List.getElem?_set_ne (fun he => hij he.symm)]
            exact inv.mem_not_pending j hj
        · intro j hj
          dsimp only at hj ⊢
          have hij : j ≠ i := fun he => hj (by
            rw [hord, he]
            exact List.mem_append_right _ (List.mem_singleton_self i))
          rw [List.getElem?_set_ne (fun he => hij he.symm)]
          exact inv.not_mem_pending j hj
        · intro i' em' rest' nxt' h
          dsimp only at h
          by_cases hii : i' = i
          · subst hii
            rw [List.getElem?_set_self hlt, Option.some.injEq] at h
            obtain ⟨h1, h2, h3⟩ := TaskPhase.holding.inj h
            obtain ⟨t, stp, ht1, ht2⟩ := inv.holding_src _ em (a :: rest) nxt hp
            refine ⟨t, stp, ht1, ?_⟩
            rw [ht2, ← h1, ← h2, ← h3]
            simp
          · rw [List.getElem?_set_ne (fun he => hii he.symm)] at h
            exact inv.holding_src i' em' rest' nxt' h
        · intro i' em' h
          dsimp only at h
          by_cases hii : i' = i
          · subst hii
            rw [List.getElem?_set_self hlt] at h
            simp at h
          · rw [List.getElem?_set_ne (fun he => hii he.symm)] at h
            exact inv.done_src i' em' h
      · exact inv
    · exact inv
  | release i =>
    unfold cstep
    dsimp only
    split
    · rename_i em nxt hp
      split
      · rename_i ho
        obtain ⟨front, em0, rest0', nxt0, hord, hpi, hfront⟩ :=
          inv.owner_some i ho
        rw [hp, Option.some.injEq] at hpi
        obtain ⟨rfl, rfl, rfl⟩ := TaskPhase.holding.inj hpi
        have hlt : i < s.phases.length := by
          have hp' := hp
          rw [List.getElem?_eq_some] at hp'
          exact hp'.1
        have hif : i ∉ front := by
          have hnd := inv.nodup
          rw [hord, List.nodup_append] at hnd
          exact fun hm => hnd.2.2 hm (List.mem_singleton_self i)
        refine ⟨?_, inv.nodup, ?_, ?_, ?_, ?_, ?_, ?_⟩
        · dsimp only
          have hcong : expTrace (s.phases.set i (TaskPhase.done em))
              s.acqOrder = expTrace s.phases s.acqOrder := by
            apply expTrace_congr
            intro j hj
            by_cases hij : j = i
            · subst hij
              rw [taken_set_self _ _ _ hlt]
              unfold taken
              rw [hp]
            · exact taken_set_ne _ _ _ _ (fun he => hij he.symm)
          rw [hcong]
          exact inv.trace_eq
        · intro i' h
          dsimp only at h
          exact Option.noConfusion h
        · intro _ j hj
          dsimp only at hj ⊢
          rw [hord] at hj
          rcases List.mem_append.mp hj with hj1 | hj2
          · have hne : i ≠ j := fun he => hif (he ▸ hj1)
            rw [List.getElem?_set_ne hne]
            exact hfront j hj1
          · have hji : j = i := List.mem_singleton.mp hj2
            subst hji
            rw [List.getElem?_set_self hlt]
            exact ⟨em, rfl⟩
        · intro j hj
          dsimp only at hj ⊢
          by_cases hij : j = i
          · subst hij
            rw [List.getElem?_set_self hlt]
            simp
          · rw [List.getElem?_set_ne (fun he => hij he.symm)]
            exact inv.mem_not_pending j hj
        · intro j hj
          dsimp only at hj ⊢
          have hij : j ≠ i := fun he => hj (by
            rw [hord, he]
            exact List.mem_append_right _ (List.mem_singleton_self i))
          rw [List.getElem?_set_ne (fun he => hij he.symm)]
          exact inv.not_mem_pending j hj
        · intro i' em' rest' nxt' h
          dsimp only at h
          by_cases hii : i' = i
          · subst hii
            rw [List.getElem?_set_self hlt] at h
            simp at h
          · rw [List.getElem?_set_ne (fun he => hii he.symm)] at h
            exact inv.holding_src i' em' rest' nxt' h
        · intro i' em' h
          dsimp only at h
          by_cases hii : i' = i
          · subst hii
            rw [List.getElem?_set_self hlt, Option.some.injEq] at h
            obtain ⟨t, stp, ht1, ht2⟩ := inv.holding_src _ em [] nxt hp
            refine ⟨t, stp, ht1, ?_⟩
            have hee : em = em' := TaskPhase.done.inj h
            rw [ht2, ← hee]
            simp
          · rw [List.getElem?_set_ne (fun he => hii he.symm)] at h
            exact inv.done_src i' em' h
      · exact inv
    · exact inv

/-- The serialization invariant holds after any schedule. -/
theorem cinv_crun (cfg : LoopCfg) (tasks : List TaskSpec) :
    ∀ (cs : List Choice) (s : CState),
      CInv cfg tasks s → CInv cfg tasks (crun cfg tasks s cs) := by
  intro cs
  induction cs with
  | nil => intro s h; exact h
  | cons c rest ih =>
    intro s h
    exact ih _ (cinv_step cfg tasks s c h)

/-- C9: each accepted event is dispatched as its own task and all tasks
contend for the one `eventLock`; under every scheduler interleaving the
global effect trace is exactly a concatenation of per-task contiguous
blocks in lock-acquisition order, no task acquires twice, and every
finished task's block is the effect list `Monitor.event` computed from a
shared state — so the visible side effects (installs, builds/restarts,
tests, error logs) of different events execute strictly one at a time, in
lock-acquisition order. -/
theorem C9_lock_serializes_dispatch :
    ∀ (cfg : LoopCfg) (tasks : List TaskSpec) (st0 : PState) (cs : List Choice),
      (crun cfg tasks (cinit tasks st0) cs).trace =
        expTrace (crun cfg tasks (cinit tasks st0) cs).phases
          (crun cfg tasks (cinit tasks st0) cs).acqOrder ∧
      (crun cfg tasks (cinit tasks st0) cs).acqOrder.Nodup ∧
      (∀ (i : Nat) (em : List Act),
        (crun cfg tasks (cinit tasks st0) cs).phases[i]? =
          some (TaskPhase.done em) →
        ∃ t stp, tasks[i]? = some t ∧
          (Monitor.event cfg.flags cfg.re cfg.importPath t.envs t.ev stp).2 =
            em) := by
  intro cfg tasks st0 cs
  have h := cinv_crun cfg tasks cs (cinit tasks st0) (cinv_init cfg tasks st0)
  exact ⟨h.trace_eq, h.nodup, fun i em hp => h.done_src i em hp⟩

/-- C9 witness: a concrete one-task schedule finishes with its block equal
to the handler's effect list. -/
theorem C9_witness :
    ∃ t stp,
      ([⟨⟨"a.go".data, "pkg".data⟩,
          ⟨⟨none, ["x".data]⟩, ⟨true, "/tmp/t".data, none, ["x".data], true⟩,
            none⟩⟩] : List TaskSpec)[0]? = some t ∧
      (Monitor.event (⟨true, false⟩ : PFlags) (fun _ => true) "p".data
          t.envs t.ev stp).2 =
        [Act.installCmd "all".data, Act.buildCmd "p".data,
          Act.start 0 "/tmp/t".data stdFiles, Act.watchImport "pkg".data] :=
  (C9_lock_serializes_dispatch ⟨⟨true, false⟩, fun _ => true, "p".data⟩
      [⟨⟨"a.go".data, "pkg".data⟩,
        ⟨⟨none, ["x".data]⟩, ⟨true, "/tmp/t".data, none, ["x".data], true⟩,
          none⟩⟩] ⟨none, none, 0⟩
      [Choice.acquire 0, Choice.emit 0, Choice.emit 0, Choice.emit 0,
        Choice.emit 0, Choice.release 0]).2.2 0
    [Act.installCmd "all".data, Act.buildCmd "p".data,
      Act.start 0 "/tmp/t".data stdFiles, Act.watchImport "pkg".data] rfl
